import Mathlib

/-!
Verification development for the pybrors repository.

The definitions below are a shallow embedding of the two cores of the
repository: the PubMed flat-file parser (src/python/pybrors/pubmed/files.py,
PubmedFile.__init__ together with PubmedFile._clean_text), the dataset merge
(src/python/pybrors/pubmed/data.py, PubmedData.__add__), and the DICOM
anonymization transform (src/python/pybrors/dicom/files.py,
DicomFile._anonymize_dataset, DicomFile.anonymize, DicomDir.__init__).

Python strings are modelled through List Char; Python dictionaries and
pydicom datasets are modelled as records with optional fields respectively
association lists; Python exceptions (KeyError, ValueError) are modelled
with Except.  Each definition carries a comment pointing at the source
lines it embeds.
-/

deriving instance DecidableEq for Except

set_option maxRecDepth 4096

namespace Pybrors

/-! ### Python string primitives, modelled on List Char -/

/-- Characters stripped by the Python str.strip method (whitespace). -/
def stripChars (cs : List Char) : List Char :=
  ((cs.dropWhile Char.isWhitespace).reverse.dropWhile Char.isWhitespace).reverse

/-- Python s.strip(). -/
def pyStrip (s : String) : String := String.mk (stripChars s.data)

/-- Python s.lower() (ASCII; the repository only feeds ASCII tags). -/
def pyLower (s : String) : String := String.mk (s.data.map Char.toLower)

/-- Python s.upper() (ASCII). -/
def pyUpper (s : String) : String := String.mk (s.data.map Char.toUpper)

/-- Python s[:n] for n greater or equal 0. -/
def pyTake (n : Nat) (s : String) : String := String.mk (s.data.take n)

/-- Python s[n:] for n greater or equal 0. -/
def pyDropN (n : Nat) (s : String) : String := String.mk (s.data.drop n)

/-- Python s[:-n] for n greater than 0 (empty result when n exceeds the length). -/
def pyDropLast (n : Nat) (s : String) : String :=
  String.mk (s.data.take (s.data.length - n))

/-- Python s[-n:] for n greater than 0 (whole string when n exceeds the length). -/
def pyTakeLast (n : Nat) (s : String) : String :=
  String.mk (s.data.drop (s.data.length - n))

/-- Numeric value of a decimal digit character. -/
def digitVal (c : Char) : Nat := c.toNat - 48

/-- Decimal value of a digit list, most significant first. -/
def natOfDigits (cs : List Char) : Nat := cs.foldl (fun a c => a * 10 + digitVal c) 0

/-- Python s.isnumeric() restricted to ASCII decimal digits. -/
def isNumericB (s : String) : Bool := !s.data.isEmpty && s.data.all Char.isDigit

/-! ### PubmedFile._clean_text (pubmed/files.py lines 190-224) -/

/-- Embeds PubmedFile._clean_text: lower-case, strip, and when keep_space is
false replace every space by an underscore (single-character str.replace). -/
def cleanText (text : String) (keepSpace : Bool) : String :=
  let t := pyStrip (pyLower text)
  if keepSpace then pyStrip t
  else pyStrip (String.mk (t.data.map (fun c => if c = ' ' then '_' else c)))

/-! ### PubmedFile.__init__ parsing loop (pubmed/files.py lines 50-154) -/

/-- Tag lists of pubmed/files.py lines 29-42 (articles dataframe columns). -/
def TAGS_ARTICLE : List String := ["PMID", "TI", "TA", "JT", "VI", "IP", "DP", "SO", "AB"]

/-- Authors dataframe columns. -/
def TAGS_AUTHOR : List String := ["PMID", "SAU", "FAU", "AD"]

/-- The pmid accumulator dictionary: a field is none when the key is absent. -/
structure ArticleAcc where
  pmid : Option String := none
  ti : Option String := none
  ta : Option String := none
  jt : Option String := none
  vi : Option String := none
  ip : Option String := none
  dp : Option String := none
  so : Option String := none
  ab : Option String := none
deriving DecidableEq

/-- The author accumulator dictionary. -/
structure AuthorAcc where
  pmid : Option String := none
  sau : Option String := none
  fau : Option String := none
  ad : Option String := none
deriving DecidableEq

/-- One row of the keywords dataframe (both keys are always set, line 114). -/
structure KeywordRow where
  pmid : String
  mh : String
deriving DecidableEq

/-- The empty pmid dictionary (Python dict falsy state). -/
def emptyArticle : ArticleAcc := {}

/-- The empty author dictionary. -/
def emptyAuthor : AuthorAcc := {}

/-- Dictionary write pmid[tag] = v for a tag of the articles columns. -/
def setArticleField (a : ArticleAcc) (tag v : String) : ArticleAcc :=
  if tag = "PMID" then { a with pmid := some v }
  else if tag = "TI" then { a with ti := some v }
  else if tag = "TA" then { a with ta := some v }
  else if tag = "JT" then { a with jt := some v }
  else if tag = "VI" then { a with vi := some v }
  else if tag = "IP" then { a with ip := some v }
  else if tag = "DP" then { a with dp := some v }
  else if tag = "SO" then { a with so := some v }
  else if tag = "AB" then { a with ab := some v }
  else a

/-- Dictionary write author[tag] = v for a tag of the authors columns. -/
def setAuthorField (a : AuthorAcc) (tag v : String) : AuthorAcc :=
  if tag = "PMID" then { a with pmid := some v }
  else if tag = "SAU" then { a with sau := some v }
  else if tag = "FAU" then { a with fau := some v }
  else if tag = "AD" then { a with ad := some v }
  else a

/-- Models text[:text.find(",")]: some prefix when a comma occurs. -/
def beforeComma : List Char → Option (List Char)
  | [] => none
  | c :: cs => if c = ',' then some [] else (beforeComma cs).map (c :: ·)

/-- Python text[:text.find(",")]: the prefix before the first comma when one
occurs, otherwise text[:-1] because str.find returns -1. -/
def commaSliceCode (s : String) : String :=
  match beforeComma s.data with
  | some p => String.mk p
  | none => String.mk (s.data.take (s.data.length - 1))

/-- Stated from the words of the specification, for comparison with
commaSliceCode: the substring before the first comma of the full name
(the whole name when it has no comma). -/
def claimCommaSlice (s : String) : String :=
  String.mk (s.data.takeWhile (fun c => c ≠ ','))

/-- Parser state of the PubmedFile.__init__ loop (lines 69-78): the three
growing tables, the two accumulator dictionaries and the two
continuation-collection flags. -/
structure PState where
  articles : List ArticleAcc := []
  authors : List AuthorAcc := []
  keywords : List KeywordRow := []
  pmidAcc : ArticleAcc := emptyArticle
  authorAcc : AuthorAcc := emptyAuthor
  collectAb : Bool := false
  collectAd : Bool := false
deriving DecidableEq

/-- Initial state (lines 69-78 of pubmed/files.py). -/
def initPState : PState := {}

/-- The author flush performed in the FAU branch (lines 99-109) and at the
end of input (lines 146-154): compute SAU from FAU and stamp the row with
the PMID currently held by the article accumulator; a missing FAU or PMID
key raises KeyError. -/
def flushAuthor (st : PState) : Except String PState :=
  match st.authorAcc.fau with
  | none => .error "KeyError: FAU"
  | some fauv =>
    match st.pmidAcc.pmid with
    | none => .error "KeyError: PMID"
    | some pv =>
      let row := { st.authorAcc with
        sau := some (cleanText (commaSliceCode fauv) false),
        pmid := some pv }
      .ok { st with authors := st.authors ++ [row] }

/-- One iteration of the line loop of PubmedFile.__init__ (lines 82-138).
The raw line is split into tag = line[:4].strip() and rest = line[5:].strip(). -/
def pstep (st : PState) (rawLine : String) : Except String PState :=
  let tag := pyStrip (pyTake 4 rawLine)
  let rest := pyStrip (pyDropN 5 rawLine)
  if tag = "PMID" then
    -- lines 88-95: flush the previous article dictionary when non-empty
    let st1 := if st.pmidAcc = emptyArticle then st
      else { st with articles := st.articles ++ [st.pmidAcc] }
    .ok { st1 with pmidAcc := { emptyArticle with pmid := some rest } }
  else if tag = "FAU" then
    -- lines 98-110: flush the previous author dictionary when non-empty
    let flushed := if st.authorAcc = emptyAuthor then .ok st else flushAuthor st
    match flushed with
    | .error e => .error e
    | .ok st1 => .ok { st1 with authorAcc := { emptyAuthor with fau := some rest } }
  else if tag = "MH" then
    -- lines 113-119: keywords are appended immediately
    match st.pmidAcc.pmid with
    | none => .error "KeyError: PMID"
    | some pv =>
      .ok { st with keywords := st.keywords ++ [{ pmid := pv, mh := cleanText rest true }] }
  else if TAGS_ARTICLE.contains tag then
    -- lines 122-124
    .ok { st with pmidAcc := setArticleField st.pmidAcc tag (cleanText rest true),
                  collectAb := tag = "AB" }
  else if TAGS_AUTHOR.contains tag then
    -- lines 126-128
    .ok { st with authorAcc := setAuthorField st.authorAcc tag (cleanText rest true),
                  collectAd := tag = "AD" }
  else if st.collectAb = true ∧ tag = "" then
    -- lines 130-131: abstract continuation
    match st.pmidAcc.ab with
    | none => .error "KeyError: AB"
    | some abv =>
      .ok { st with pmidAcc := { st.pmidAcc with ab := some (abv ++ cleanText rest true) } }
  else if st.collectAd = true ∧ tag = "" then
    -- lines 133-134: address continuation
    match st.authorAcc.ad with
    | none => .error "KeyError: AD"
    | some adv =>
      .ok { st with authorAcc := { st.authorAcc with ad := some (adv ++ cleanText rest true) } }
  else
    -- lines 136-138
    .ok { st with collectAb := false, collectAd := false }

/-- The loop over all lines of the file. -/
def prun : PState → List String → Except String PState
  | st, [] => .ok st
  | st, l :: ls =>
    match pstep st l with
    | .error e => .error e
    | .ok st2 => prun st2 ls

/-- End of input (lines 140-154): the article accumulator is flushed
unconditionally; the author accumulator flush reads author["FAU"]
unconditionally, so an empty author dictionary raises KeyError. -/
def pfinish (st : PState) : Except String PState :=
  let st1 := { st with articles := st.articles ++ [st.pmidAcc] }
  flushAuthor st1

/-- Full PubmedFile.__init__ parse of a list of lines. -/
def parseLines (ls : List String) : Except String PState :=
  match prun initPState ls with
  | .error e => .error e
  | .ok st => pfinish st

/-- A line whose 4-character tag field is PMID, as the parser reads it. -/
def pmidTagLine (l : String) : Bool := pyStrip (pyTake 4 l) == "PMID"

/-- Validity of a file per PubmedFile.test_file lines 180-186: the first
four characters of the file are PMID. -/
def validFirstLine : List String → Prop
  | [] => False
  | l :: _ => pyTake 4 l = "PMID"

instance : DecidablePred validFirstLine := by
  intro ls
  cases ls <;> simp [validFirstLine] <;> infer_instance

/-! ### PubmedData merge (pubmed/data.py lines 217-243) -/

/-- The three tables of a PubmedData value. -/
structure PubmedData where
  articles : List ArticleAcc
  authors : List AuthorAcc
  keywords : List KeywordRow
deriving DecidableEq

/-- The pandas drop_duplicates(keep="first") loop: keep each row the first
time its value is seen.  All-columns equality, missing values comparing
equal to missing values, matches structural equality of the row records. -/
def dedupAux {α : Type} [DecidableEq α] (seen : List α) : List α → List α
  | [] => []
  | x :: xs => if x ∈ seen then dedupAux seen xs else x :: dedupAux (x :: seen) xs

/-- pandas DataFrame.drop_duplicates with keep="first". -/
def dropDuplicates {α : Type} [DecidableEq α] (l : List α) : List α := dedupAux [] l

/-- PubmedData.__add__ (lines 217-243): concatenate the three pairs of
tables (ignore_index, outer join on identical column sets) and remove
duplicated rows keeping the first occurrence. -/
def pubmedAdd (a b : PubmedData) : PubmedData :=
  { articles := dropDuplicates (a.articles ++ b.articles)
    authors := dropDuplicates (a.authors ++ b.authors)
    keywords := dropDuplicates (a.keywords ++ b.keywords) }

/-! ### DICOM dataset model (dicom/files.py) -/

/-- A decoded DICOM dataset: tag names mapped to string values.  The tags
touched by the anonymization transform all carry string values in pydicom. -/
abbrev Dataset := List (String × String)

/-- Lookup dataset[tag].value (first matching element). -/
def dsGet (d : Dataset) (t : String) : Option String :=
  (d.find? (fun p => p.1 == t)).map (fun p => p.2)

/-- Membership test, Python tag in dataset. -/
def dsMem (d : Dataset) (t : String) : Bool :=
  (d.find? (fun p => p.1 == t)).isSome

/-- Write dataset[tag].value = v on an existing tag (the callers guard with
a membership test). -/
def dsSet (d : Dataset) (t v : String) : Dataset :=
  d.map (fun p => if p.1 = t then (p.1, v) else p)

/-- Attribute assignment adding a fresh element (dataset.DeviceSerialNumber
in line 307). -/
def dsAdd (d : Dataset) (t v : String) : Dataset := d ++ [(t, v)]

/-- Python exceptions raised by the anonymization transform. -/
inductive PyErr where
  | keyError (tag : String)
  | valueError
deriving DecidableEq

/-- TAGS_CLEARED of dicom/files.py lines 22-56. -/
def TAGS_CLEARED : List String := [
  "InstitutionName",
  "InstitutionAddress",
  "ReferringPhysicianName",
  "ReferringPhysicianAddress",
  "ReferringPhysicianTelephoneNumbers",
  "InstitutionalDepartmentName",
  "PhysiciansOfRecord",
  "PerformingPhysicianName",
  "NameOfPhysiciansReadingStudy",
  "OperatorsName",
  "AdmittingDiagnosesDescription",
  "OtherPatientIDs",
  "OtherPatientNames",
  "MedicalRecordLocator",
  "EthnicGroup",
  "Occupation",
  "AdditionalPatientHistory",
  "PatientComments",
  "RequestingPhysician",
  "RequestingService",
  "RequestedProcedureDescription",
  "ScheduledPerformingPhysicianName",
  "PerformedStationAETitle",
  "RequestAttributesSequence",
  "RequestedProcedureID",
  "IssueDateOfImagingServiceRequest",
  "ContentSequence",
  "ImplementationVersionName",
  "ProcedureCodeSequence",
  "PerformedProcedureStepDescription",
  "PerformedProtocolCodeSequence",
  "RetrieveAETitle",
  "ReferencedPerformedProcedureStepSequence"]

/-! ### The numeric fingerprint (dicom/files.py lines 310-313) -/

/-- Scanner state while reproducing re.findall over the pattern of one
optional sign followed by a digit run. -/
inductive ScanSt where
  | neutral
  | signed (s : Int)
  | run (s : Int) (n : Nat)

/-- Left-to-right scan returning every maximal signed integer run, exactly
the matches of re.findall with pattern [+-]?\d+ converted through int. -/
def scanInts : ScanSt → List Char → List Int
  | st, [] =>
    match st with
    | .run s n => [s * n]
    | _ => []
  | st, c :: cs =>
    match st with
    | .run s n =>
      if c.isDigit then scanInts (.run s (n * 10 + digitVal c)) cs
      else if c = '+' then s * n :: scanInts (.signed 1) cs
      else if c = '-' then s * n :: scanInts (.signed (-1)) cs
      else s * n :: scanInts .neutral cs
    | .signed s =>
      if c.isDigit then scanInts (.run s (digitVal c)) cs
      else if c = '+' then scanInts (.signed 1) cs
      else if c = '-' then scanInts (.signed (-1)) cs
      else scanInts .neutral cs
    | .neutral =>
      if c.isDigit then scanInts (.run 1 (digitVal c)) cs
      else if c = '+' then scanInts (.signed 1) cs
      else if c = '-' then scanInts (.signed (-1)) cs
      else scanInts .neutral cs

/-- Python str(hex(x)).upper()[2:]: uppercase hexadecimal rendering without
the leading 0X; a negative argument keeps the X because the slice removes
the minus sign and the zero. -/
def pyHexUpperDrop2 (x : Int) : String :=
  let core := Nat.toDigits 16 x.natAbs
  let full := if x < 0 then '-' :: '0' :: 'x' :: core else '0' :: 'x' :: core
  String.mk ((full.map Char.toUpper).drop 2)

/-- Lines 310-313: replace every dot of the study UID by a plus, extract
every signed integer run, sum them, render as uppercase hexadecimal. -/
def fingerprint (uid : String) : String :=
  let plussed := uid.data.map (fun c => if c = '.' then '+' else c)
  pyHexUpperDrop2 ((scanInts .neutral plussed).foldl (· + ·) 0)

/-- Python int(str): strip, optional single sign, at least one digit.
Underscore digit grouping is not modelled; no caller produces it. -/
def pyIntOfChars (cs : List Char) : Option Int :=
  match stripChars cs with
  | '+' :: rest =>
    if rest ≠ [] ∧ rest.all Char.isDigit then some (natOfDigits rest) else none
  | '-' :: rest =>
    if rest ≠ [] ∧ rest.all Char.isDigit then some (-(natOfDigits rest : Int)) else none
  | t => if t ≠ [] ∧ t.all Char.isDigit then some (natOfDigits t) else none

/-! ### DicomFile._anonymize_dataset (dicom/files.py lines 286-364) -/

/-- One iteration of the clearing loop (lines 355-362): a present tag has
its value cleared, an absent tag is only logged. -/
def clearStep (d : Dataset) (t : String) : Dataset :=
  if dsMem d t then dsSet d t "" else d

/-- The clearing loop over TAGS_CLEARED. -/
def clearTags (d : Dataset) : Dataset := TAGS_CLEARED.foldl clearStep d

/-- One iteration of the overwrite loop (lines 346-352): a present tag is
overwritten, an absent tag is only logged. -/
def overwriteStep (d : Dataset) (p : String × String) : Dataset :=
  if dsMem d p.1 then dsSet d p.1 p.2 else d

/-- DicomFile._anonymize_dataset on the deep copy of the dataset.  The
datetime.today() values and platform.node() are passed as arguments:
todayLong is strftime of YYYYMMDD, todayShort of YYMMDD, node the host
name.  Unguarded tag reads raise KeyError; int of a non-numeric string
raises ValueError, in source order. -/
def anonymizeDataset (ds : Dataset) (todayLong todayShort node : String) :
    Except PyErr Dataset :=
  -- line 298: dataset = copy.deepcopy(self.dataset); updates act on the copy
  match dsGet ds "StudyDate" with
  | none => .error (.keyError "StudyDate")
  | some studyDate =>
  match dsGet ds "StudyTime" with
  | none => .error (.keyError "StudyTime")
  | some studyTime =>
  match dsGet ds "StudyInstanceUID" with
  | none => .error (.keyError "StudyInstanceUID")
  | some studyUid0 =>
  -- lines 304-308
  let ds1 := if dsMem ds "DeviceSerialNumber" then ds
    else dsAdd ds "DeviceSerialNumber" todayLong
  match dsGet ds1 "DeviceSerialNumber" with
  | none => .error (.keyError "DeviceSerialNumber")
  | some serialNum0 =>
  -- lines 310-313
  let studyUid := fingerprint studyUid0
  -- lines 316-317
  let serialNum := if isNumericB serialNum0 then serialNum0 else todayShort
  -- lines 320-321
  let newPidS := serialNum ++ pyDropN 2 studyDate ++ pyTake 4 studyTime
  match pyIntOfChars newPidS.data with
  | none => .error .valueError
  | some npv =>
  let newPid := pyHexUpperDrop2 npv
  -- lines 322-325
  let newStudyDate := pyDropLast 4 studyDate ++ "0101"
  match dsGet ds1 "PatientBirthDate" with
  | none => .error (.keyError "PatientBirthDate")
  | some birth0 =>
  let newBirthDate := pyDropLast 4 birth0 ++ "0101"
  let newStation := pyUpper node
  -- lines 328-352
  let pairs : List (String × String) := [
    ("StationName", newStation),
    ("InstanceCreationDate", newStudyDate),
    ("StudyDate", newStudyDate),
    ("SeriesDate", newStudyDate),
    ("AcquisitionDate", newStudyDate),
    ("ContentDate", newStudyDate),
    ("AccessionNumber", pyTakeLast 16 studyUid),
    ("PatientName", newPid),
    ("PatientID", newPid),
    ("PatientBirthDate", newBirthDate),
    ("StudyID", pyTakeLast 16 studyUid)]
  let ds2 := pairs.foldl overwriteStep ds1
  -- lines 354-364
  .ok (clearTags ds2)

/-! ### DicomFile object state (dicom/files.py lines 81-210) -/

/-- The attributes of a DicomFile object that the anonymization methods can
reach. -/
structure DicomFile where
  fileDir : String
  fileName : String
  fileExt : String
  dataset : Dataset
deriving DecidableEq

/-- The _anonymize_dataset method as a state transformer on the object:
line 298 deep-copies self.dataset and every later statement of the method
writes that copy; the method body contains no assignment to self, so the
object component passes through. -/
def anonymizeDatasetMethod (self : DicomFile) (todayLong todayShort node : String) :
    Except PyErr (DicomFile × Dataset) :=
  match anonymizeDataset self.dataset todayLong todayShort node with
  | .ok d => .ok (self, d)
  | .error e => .error e

/-- A saved-files store: path mapped to the saved dataset. -/
abbrev FileStore := List (String × Dataset)

/-- pydicom save_as: write the dataset at the path, replacing an existing
file. -/
def fsSave (path : String) (d : Dataset) (fs : FileStore) : FileStore :=
  (path, d) :: fs.filter (fun p => p.1 != path)

/-- DicomFile.anonymize (lines 162-210), for a resolved target path: the
path computation (lines 182-192 and 200-206) reads only path attributes and
the anonymized copy, never self.dataset, and is passed here as the already
resolved newPath.  A KeyError escaping _anonymize_dataset propagates
(the method has no handler); on success the anonymized copy is saved. -/
def anonymizeMethod (self : DicomFile) (todayLong todayShort node : String)
    (newPath : String) (fs : FileStore) :
    Except PyErr (DicomFile × FileStore × Bool) :=
  match anonymizeDatasetMethod self todayLong todayShort node with
  | .error e => .error e
  | .ok (self2, d) => .ok (self2, fsSave newPath d fs, true)

/-! ### DicomDir.__init__ deletion of anonymized files (lines 396-400) -/

/-- Bool prefix test on character lists. -/
def startsWith : List Char → List Char → Bool
  | [], _ => true
  | _ :: _, [] => false
  | p :: ps, c :: cs => p = c && startsWith ps cs

/-- Bool substring containment, Python pat in s. -/
def hasSubList (p : List Char) : List Char → Bool
  | [] => p.isEmpty
  | c :: cs => startsWith p (c :: cs) || hasSubList p cs

/-- Python "anonymized" in file. -/
def hasAnonymized (f : String) : Bool := hasSubList "anonymized".data f.data

/-- os.remove: delete the file, FileNotFoundError when absent. -/
def osRemove (f : String) (fs : List String) : Option (List String) :=
  if f ∈ fs then some (fs.erase f) else none

/-- The deletion loop of lines 399-400. -/
def removeAll : List String → List String → Option (List String)
  | [], fs => some fs
  | f :: rest, fs =>
    match osRemove f fs with
    | none => none
    | some fs2 => removeAll rest fs2

/-- Lines 396-400 of DicomDir.__init__: split the listed files on the
anonymized substring, keep the clean ones in memory and delete the others
from the filesystem (modelled as the list of existing paths).  Returns the
filesystem after deletion and the new in-memory file list. -/
def dicomDirInit (fileList : List String) (fs : List String) :
    Option (List String × List String) :=
  let anonFiles := fileList.filter (fun f => hasAnonymized f)
  let keep := fileList.filter (fun f => !hasAnonymized f)
  match removeAll anonFiles fs with
  | none => none
  | some fs2 => some (fs2, keep)

/-- An author row as flushed by the parser: the SAU field is derived from
the FAU field through the slice text[:text.find(",")] and the space-free
text normalization. -/
def goodAuthorRow (r : AuthorAcc) : Prop :=
  ∃ f, r.fau = some f ∧ r.sau = some (cleanText (commaSliceCode f) false)

/-- Concrete final parser state used to witness the C5 count theorem. -/
def stC5 : PState :=
  { articles := [{ pmid := some "1", ti := some "t" }, { pmid := some "2" }]
    authors := [{ pmid := some "2", sau := some "doe", fau := some "Doe, J" }]
    keywords := []
    pmidAcc := { pmid := some "2" }
    authorAcc := { fau := some "Doe, J" }
    collectAb := false
    collectAd := false }

/-- Concrete author row used to witness the C6 amended theorem. -/
def rowC6 : AuthorAcc := { pmid := some "1", sau := some "doe", fau := some "Doe, J" }

/-- Concrete final parser state used to witness the C6 amended theorem. -/
def stC6 : PState :=
  { articles := [{ pmid := some "1" }]
    authors := [rowC6]
    keywords := []
    pmidAcc := { pmid := some "1" }
    authorAcc := { fau := some "Doe, J" }
    collectAb := false
    collectAd := false }

/-- Concrete duplicate-free dataset used to witness the C4 amended
theorem. -/
def pubmedW : PubmedData :=
  { articles := [{ pmid := some "1", ti := some "t" }, { pmid := some "2" }]
    authors := [{ pmid := some "1", sau := some "doe", fau := some "Doe, J" }]
    keywords := [{ pmid := "1", mh := "ct" }] }

/-- Concrete DicomFile object used to witness the C10 theorem. -/
def dfW : DicomFile :=
  { fileDir := "/data", fileName := "img.dcm", fileExt := ".dcm",
    dataset := [("StudyDate", "20230405"), ("StudyTime", "123000"),
      ("StudyInstanceUID", "1.2.840.113"), ("DeviceSerialNumber", "1234"),
      ("PatientBirthDate", "19800615")] }

/-- The anonymized copy produced from dfW. -/
def anonOutW : Dataset :=
  [("StudyDate", "20230101"), ("StudyTime", "123000"),
   ("StudyInstanceUID", "1.2.840.113"), ("DeviceSerialNumber", "1234"),
   ("PatientBirthDate", "19800101")]

/-!
## Theorems

One theorem per claim of the specification review, together with the
helper lemmas they build on.
-/

/-- C3: the derived numeric fingerprint of the study UID 1.2.840.113 is the
string 3BC (sum 1+2+840+113 = 956 rendered as uppercase hexadecimal), and a
record carrying that UID gets 3BC written into its StudyID tag by the
anonymization transform. -/
theorem C3_fingerprint_3BC :
    fingerprint "1.2.840.113" = "3BC" ∧
    (anonymizeDataset
      [("StudyDate", "20230405"), ("StudyTime", "123000"),
       ("StudyInstanceUID", "1.2.840.113"), ("DeviceSerialNumber", "1234"),
       ("PatientBirthDate", "19800615"), ("StudyID", "S77")]
      "20261012" "261012" "myhost").map (fun d => dsGet d "StudyID") =
      .ok (some "3BC") := by
  decide

/-- C1 fails on the code: in the file PMID 1, FAU Author A, PMID 2,
FAU Buthor B, the FAU line of author A occurs while article 1 is the most
recently opened article, yet the parser stamps the author row for A with
PMID 2 because the PMID is read at flush time, after the accumulator has
been reset by the second PMID line. -/
theorem C1_code_misattributes_author :
    (parseLines ["PMID- 1", "FAU - Author, A", "PMID- 2", "FAU - Buthor, B"]).map
      (fun st => st.authors.map (fun r => (r.fau, r.pmid))) =
      .ok [(some "Author, A", some "2"), (some "Buthor, B", some "2")] ∧
    (parseLines ["PMID- 1", "FAU - Author, A", "PMID- 2", "FAU - Buthor, B"]).map
      (fun st => st.keywords) = .ok [] := by
  decide

/-- C7 fails on the code: the file consisting of the single line
PMID- 123456 is valid per the format test (it begins with PMID), contains
no FAU line, and the end-of-input step raises KeyError on the empty author
dictionary instead of completing. -/
theorem C7_parse_fails_without_FAU :
    validFirstLine ["PMID- 123456"] ∧
    parseLines ["PMID- 123456"] = .error "KeyError: FAU" := by
  constructor
  · decide
  · decide

/-- C2 as stated is false on the code: this record carries StudyDate,
StudyTime and StudyInstanceUID, yet anonymization aborts with a lookup
error because the transform also reads PatientBirthDate unconditionally. -/
theorem C2_counterexample :
    dsMem [("StudyDate", "20230405"), ("StudyTime", "123000"),
      ("StudyInstanceUID", "1.2.840.113"), ("DeviceSerialNumber", "1234")]
      "StudyDate" = true ∧
    dsMem [("StudyDate", "20230405"), ("StudyTime", "123000"),
      ("StudyInstanceUID", "1.2.840.113"), ("DeviceSerialNumber", "1234")]
      "StudyTime" = true ∧
    dsMem [("StudyDate", "20230405"), ("StudyTime", "123000"),
      ("StudyInstanceUID", "1.2.840.113"), ("DeviceSerialNumber", "1234")]
      "StudyInstanceUID" = true ∧
    anonymizeDataset
      [("StudyDate", "20230405"), ("StudyTime", "123000"),
       ("StudyInstanceUID", "1.2.840.113"), ("DeviceSerialNumber", "1234")]
      "20261012" "261012" "myhost" = .error (.keyError "PatientBirthDate") := by
  decide

/-- C4 as stated is false on the code: a dataset whose article table holds
the same row twice (obtainable from a file with a repeated PMID block) is
not a fixed point of self-merge, because deduplication collapses the two
rows into one. -/
theorem C4_counterexample :
    pubmedAdd
      { articles := [{ pmid := some "1" }, { pmid := some "1" }],
        authors := [], keywords := [] }
      { articles := [{ pmid := some "1" }, { pmid := some "1" }],
        authors := [], keywords := [] } ≠
      { articles := [{ pmid := some "1" }, { pmid := some "1" }],
        authors := [], keywords := [] } := by
  decide

/-- C6 as stated is false on the code: for the comma-free full name Smith
the parser derives the short name smit (the name minus its final character,
because str.find returns -1), not the normalization smith of the substring
before the first comma. -/
theorem C6_counterexample :
    (parseLines ["PMID- 1", "FAU - Smith", "FAU - Doe, J"]).map
      (fun st => st.authors.map (fun r => (r.fau, r.sau))) =
      .ok [(some "Smith", some "smit"), (some "Doe, J", some "doe")] ∧
    cleanText (claimCommaSlice "Smith") false = "smith" ∧
    ("smit" : String) ≠ "smith" := by
  decide

/-! ### Parser invariants shared by the PubMed claims -/

lemma setArticleField_ne_empty (a : ArticleAcc) (tag v : String)
    (h : a ≠ emptyArticle) : setArticleField a tag v ≠ emptyArticle := by
  unfold setArticleField
  repeat' split
  all_goals simp [emptyArticle]
  all_goals exact fun hc => h (by simp [emptyArticle]; exact hc)

lemma flushAuthor_ok (st st2 : PState) (h : flushAuthor st = .ok st2) :
    st2.pmidAcc = st.pmidAcc ∧ st2.articles = st.articles ∧
    ∃ row, goodAuthorRow row ∧ st2.authors = st.authors ++ [row] := by
  unfold flushAuthor at h
  split at h
  · exact absurd h (by simp)
  next fauv hfau =>
    split at h
    · exact absurd h (by simp)
    next pv hpv =>
      simp only [Except.ok.injEq] at h
      subst h
      refine ⟨rfl, rfl, ?_⟩
      exact ⟨_, ⟨fauv, by simp [hfau], by simp⟩, rfl⟩

/-- One parsing step preserves non-emptiness of the article accumulator,
grows the article table exactly on PMID tag lines, and only appends
well-formed author rows. -/
lemma pstep_props (st st2 : PState) (l : String) (h : pstep st l = .ok st2) :
    (st.pmidAcc ≠ emptyArticle → st2.pmidAcc ≠ emptyArticle) ∧
    (st.pmidAcc ≠ emptyArticle →
      st2.articles.length = st.articles.length + (if pmidTagLine l = true then 1 else 0)) ∧
    ((∀ r ∈ st.authors, goodAuthorRow r) → ∀ r ∈ st2.authors, goodAuthorRow r) := by
  simp only [pstep] at h
  split at h
  · -- PMID branch
    next hPMID =>
    have hTag : pmidTagLine l = true := by simp [pmidTagLine, hPMID]
    simp only [Except.ok.injEq] at h
    subst h
    refine ⟨fun _ => by simp [emptyArticle], fun hne => ?_, fun hg => ?_⟩
    · have hif : (if st.pmidAcc = emptyArticle then st
          else { st with articles := st.articles ++ [st.pmidAcc] }) =
          { st with articles := st.articles ++ [st.pmidAcc] } := if_neg hne
      simp [hif, hTag]
    · intro r hr
      apply hg
      revert hr
      split <;> exact id
  next hnP =>
  have hTag : pmidTagLine l = false := by
    simp only [pmidTagLine, beq_eq_false_iff_ne, ne_eq]
    exact hnP
  rw [hTag]
  simp only [Bool.false_eq_true, if_false, Nat.add_zero]
  split at h
  · -- FAU branch
    split at h
    · exact absurd h (by simp)
    next st1 heq =>
      simp only [Except.ok.injEq] at h
      subst h
      by_cases hEA : st.authorAcc = emptyAuthor
      · rw [if_pos hEA] at heq
        simp only [Except.ok.injEq] at heq
        subst heq
        exact ⟨fun hne => hne, fun _ => rfl, fun hg r hr => hg r hr⟩
      · rw [if_neg hEA] at heq
        obtain ⟨hp, ha, row, hrow, hauth⟩ := flushAuthor_ok st st1 heq
        refine ⟨fun hne => by simpa [hp] using hne, fun _ => by simp [ha], ?_⟩
        intro hg r hr
        simp only at hr
        rw [hauth] at hr
        rcases List.mem_append.mp hr with hr | hr
        · exact hg r hr
        · simp only [List.mem_singleton] at hr
          subst hr
          exact hrow
  split at h
  · -- MH branch
    split at h
    · exact absurd h (by simp)
    next pv hpv =>
      simp only [Except.ok.injEq] at h
      subst h
      exact ⟨fun hne => hne, fun _ => rfl, fun hg r hr => hg r hr⟩
  split at h
  · -- article tag branch
    simp only [Except.ok.injEq] at h
    subst h
    exact ⟨fun hne => setArticleField_ne_empty _ _ _ hne, fun _ => rfl,
      fun hg r hr => hg r hr⟩
  split at h
  · -- author tag branch
    simp only [Except.ok.injEq] at h
    subst h
    exact ⟨fun hne => hne, fun _ => rfl, fun hg r hr => hg r hr⟩
  split at h
  · -- AB continuation
    split at h
    · exact absurd h (by simp)
    next abv habv =>
      simp only [Except.ok.injEq] at h
      subst h
      exact ⟨fun _ => by simp [emptyArticle], fun _ => rfl, fun hg r hr => hg r hr⟩
  split at h
  · -- AD continuation
    split at h
    · exact absurd h (by simp)
    next adv hadv =>
      simp only [Except.ok.injEq] at h
      subst h
      exact ⟨fun hne => hne, fun _ => rfl, fun hg r hr => hg r hr⟩
  · -- default branch
    simp only [Except.ok.injEq] at h
    subst h
    exact ⟨fun hne => hne, fun _ => rfl, fun hg r hr => hg r hr⟩

/-- The line loop preserves the step invariants. -/
lemma prun_props (ls : List String) : ∀ st st2, prun st ls = .ok st2 →
    (st.pmidAcc ≠ emptyArticle → st2.pmidAcc ≠ emptyArticle ∧
      st2.articles.length = st.articles.length + (ls.filter pmidTagLine).length) ∧
    ((∀ r ∈ st.authors, goodAuthorRow r) → ∀ r ∈ st2.authors, goodAuthorRow r) := by
  induction ls with
  | nil =>
    intro st st2 h
    simp only [prun, Except.ok.injEq] at h
    subst h
    exact ⟨fun hne => ⟨hne, by simp⟩, fun hg => hg⟩
  | cons l ls ih =>
    intro st st2 h
    simp only [prun] at h
    split at h
    · exact absurd h (by simp)
    next stm heq =>
      obtain ⟨hne1, hlen1, hg1⟩ := pstep_props st stm l heq
      obtain ⟨hrest, hgrest⟩ := ih stm st2 h
      refine ⟨fun hne => ?_, fun hg => hgrest (hg1 hg)⟩
      obtain ⟨hne2, hlen2⟩ := hrest (hne1 hne)
      refine ⟨hne2, ?_⟩
      rw [hlen2, hlen1 hne, List.filter_cons]
      by_cases hp : pmidTagLine l = true
      · simp [hp]
        omega
      · simp [hp]

/-- End of input adds exactly the one final article row and one
well-formed author row. -/
lemma pfinish_props (st st2 : PState) (h : pfinish st = .ok st2) :
    st2.articles.length = st.articles.length + 1 ∧
    ((∀ r ∈ st.authors, goodAuthorRow r) → ∀ r ∈ st2.authors, goodAuthorRow r) := by
  unfold pfinish at h
  obtain ⟨hp, ha, row, hrow, hauth⟩ := flushAuthor_ok _ _ h
  constructor
  · rw [ha]
    simp
  · intro hg r hr
    rw [hauth] at hr
    simp only at hr
    rcases List.mem_append.mp hr with hr | hr
    · exact hg r hr
    · simp only [List.mem_singleton] at hr
      subst hr
      exact hrow

/-- C5: for every valid PubMed input (first four characters PMID), a
successful parse produces exactly one article row per PMID tag line. -/
theorem C5_article_count (ls : List String) (st : PState)
    (hv : validFirstLine ls) (hok : parseLines ls = .ok st) :
    st.articles.length = (ls.filter pmidTagLine).length := by
  cases ls with
  | nil => exact absurd hv (by simp [validFirstLine])
  | cons l rest =>
    have hl : pyTake 4 l = "PMID" := hv
    have htag : pyStrip (pyTake 4 l) = "PMID" := by
      rw [hl]
      decide
    have h1 : pstep initPState l =
        .ok { initPState with
          pmidAcc := { emptyArticle with pmid := some (pyStrip (pyDropN 5 l)) } } := by
      simp [pstep, htag, initPState, emptyArticle]
    unfold parseLines at hok
    split at hok
    · exact absurd hok (by simp)
    next stm heq =>
      simp only [prun, h1] at heq
      obtain ⟨hne2, hlen2⟩ := (prun_props rest _ stm heq).1 (by simp [emptyArticle])
      obtain ⟨hlen3, -⟩ := pfinish_props stm st hok
      have hptl : pmidTagLine l = true := by simp [pmidTagLine, htag]
      rw [List.filter_cons, if_pos hptl]
      simp only [initPState] at hlen2
      simp only [List.length_nil, Nat.zero_add] at hlen2
      simp only [List.length_cons]
      omega

/-- C5 witness at a concrete valid two-article file. -/
theorem C5_article_count_witness :
    stC5.articles.length =
      ((["PMID- 1", "TI  - T", "PMID- 2", "FAU - Doe, J"]).filter pmidTagLine).length :=
  C5_article_count ["PMID- 1", "TI  - T", "PMID- 2", "FAU - Doe, J"] stC5
    (by decide) (by decide)

/-! ### The comma slice lemmas for C6 -/

lemma beforeComma_eq_some (cs : List Char) : ∀ p, beforeComma cs = some p →
    p = cs.takeWhile (fun c => c ≠ ',') := by
  induction cs with
  | nil => intro p h; exact absurd h (by simp [beforeComma])
  | cons c cs ih =>
    intro p h
    simp only [beforeComma] at h
    by_cases hc : c = ','
    · rw [if_pos hc] at h
      simp only [Option.some.injEq] at h
      subst h
      simp [List.takeWhile_cons, hc]
    · rw [if_neg hc] at h
      cases hq : beforeComma cs with
      | none => rw [hq] at h; exact absurd h (by simp)
      | some q =>
        rw [hq] at h
        simp at h
        subst h
        rw [ih q hq]
        simp [List.takeWhile_cons, hc]

lemma beforeComma_isSome (cs : List Char) (h : ',' ∈ cs) :
    (beforeComma cs).isSome := by
  induction cs with
  | nil => exact absurd h (by simp)
  | cons c cs ih =>
    simp only [beforeComma]
    by_cases hc : c = ','
    · rw [if_pos hc]; rfl
    · rw [if_neg hc]
      have : ',' ∈ cs := by
        rcases List.mem_cons.mp h with h | h
        · exact absurd h.symm hc
        · exact h
      obtain ⟨q, hq⟩ := Option.isSome_iff_exists.mp (ih this)
      rw [hq]
      rfl

/-- On a name containing a comma, the code slice and the slice described
by the specification agree. -/
lemma commaSliceCode_eq_claim (s : String) (h : ',' ∈ s.data) :
    commaSliceCode s = claimCommaSlice s := by
  unfold commaSliceCode claimCommaSlice
  obtain ⟨p, hp⟩ := Option.isSome_iff_exists.mp (beforeComma_isSome s.data h)
  rw [hp, beforeComma_eq_some s.data p hp]

/-- C6 amended: every flushed author row derives SAU from FAU through the
Python slice FAU[:FAU.find(",")] followed by the space-free normalization;
when the full name contains a comma this is exactly the normalized
substring before the first comma, and otherwise it is the normalized name
with its final character removed. -/
theorem C6_amended (ls : List String) (st : PState)
    (hok : parseLines ls = .ok st) :
    ∀ r ∈ st.authors, ∃ f, r.fau = some f ∧
      r.sau = some (cleanText (commaSliceCode f) false) ∧
      (',' ∈ f.data → r.sau = some (cleanText (claimCommaSlice f) false)) := by
  have hall : ∀ r ∈ st.authors, goodAuthorRow r := by
    unfold parseLines at hok
    split at hok
    · exact absurd hok (by simp)
    next stm heq =>
      have h1 := (prun_props ls initPState stm heq).2
        (by intro r hr; simp [initPState] at hr)
      exact (pfinish_props stm st hok).2 h1
  intro r hr
  obtain ⟨f, hf, hs⟩ := hall r hr
  refine ⟨f, hf, hs, fun hc => ?_⟩
  rw [hs, commaSliceCode_eq_claim f hc]

/-- C6 amended witness at a concrete parse. -/
theorem C6_amended_witness :
    ∃ f, rowC6.fau = some f ∧
      rowC6.sau = some (cleanText (commaSliceCode f) false) ∧
      (',' ∈ f.data → rowC6.sau = some (cleanText (claimCommaSlice f) false)) :=
  C6_amended ["PMID- 1", "FAU - Doe, J"] stC6 (by decide) rowC6 (by decide)

/-! ### Deduplication lemmas for C4 -/

lemma dedupAux_nil_of_sub {α : Type} [DecidableEq α] (seen l : List α)
    (h : ∀ a ∈ l, a ∈ seen) : dedupAux seen l = [] := by
  induction l generalizing seen with
  | nil => rfl
  | cons x xs ih =>
    simp only [dedupAux]
    rw [if_pos (h x (by simp))]
    exact ih seen (fun a ha => h a (by simp [ha]))

lemma dedupAux_append_of_sub {α : Type} [DecidableEq α] (l₂ : List α) :
    ∀ (l₁ seen : List α), (∀ a ∈ l₂, a ∈ seen ∨ a ∈ l₁) →
      dedupAux seen (l₁ ++ l₂) = dedupAux seen l₁ := by
  intro l₁
  induction l₁ with
  | nil =>
    intro seen h
    simp only [List.nil_append, dedupAux]
    exact dedupAux_nil_of_sub seen l₂ (fun a ha => (h a ha).resolve_right (by simp))
  | cons x xs ih =>
    intro seen h
    simp only [List.cons_append, dedupAux]
    by_cases hx : x ∈ seen
    · rw [if_pos hx, if_pos hx]
      refine ih seen (fun a ha => ?_)
      rcases h a ha with hs | hm
      · exact .inl hs
      · rcases List.mem_cons.mp hm with rfl | hm
        · exact .inl hx
        · exact .inr hm
    · rw [if_neg hx, if_neg hx]
      congr 1
      refine ih (x :: seen) (fun a ha => ?_)
      rcases h a ha with hs | hm
      · exact .inl (by simp [hs])
      · rcases List.mem_cons.mp hm with rfl | hm
        · exact .inl (by simp)
        · exact .inr hm

lemma dedupAux_of_nodup {α : Type} [DecidableEq α] (l : List α) :
    ∀ seen, l.Nodup → (∀ a ∈ l, a ∉ seen) → dedupAux seen l = l := by
  induction l with
  | nil => intro seen _ _; rfl
  | cons x xs ih =>
    intro seen hnd hout
    simp only [dedupAux]
    rw [if_neg (hout x (by simp))]
    congr 1
    refine ih (x :: seen) (List.Nodup.of_cons hnd) (fun a ha => ?_)
    intro hmem
    rcases List.mem_cons.mp hmem with rfl | hmem
    · exact (List.nodup_cons.mp hnd).1 ha
    · exact hout a (by simp [ha]) hmem

lemma dropDuplicates_self_append {α : Type} [DecidableEq α] (l : List α) :
    dropDuplicates (l ++ l) = dropDuplicates l :=
  dedupAux_append_of_sub l l [] (fun _ ha => .inr ha)

lemma dropDuplicates_of_nodup {α : Type} [DecidableEq α] (l : List α)
    (h : l.Nodup) : dropDuplicates l = l :=
  dedupAux_of_nodup l [] h (fun a _ => by simp)

/-- C4 amended: self-merge yields the first-occurrence deduplication of
the three tables of A, and is the identity exactly on duplicate-free
tables. -/
theorem C4_amended (A : PubmedData) :
    pubmedAdd A A =
      { articles := dropDuplicates A.articles,
        authors := dropDuplicates A.authors,
        keywords := dropDuplicates A.keywords } ∧
    (A.articles.Nodup → A.authors.Nodup → A.keywords.Nodup →
      pubmedAdd A A = A) := by
  constructor
  · unfold pubmedAdd
    simp [dropDuplicates_self_append]
  · intro h1 h2 h3
    cases A with
    | mk arts auths kws =>
      unfold pubmedAdd
      simp only at h1 h2 h3
      simp [dropDuplicates_self_append, dropDuplicates_of_nodup _ h1,
        dropDuplicates_of_nodup _ h2, dropDuplicates_of_nodup _ h3]

/-- C4 amended witness at a concrete duplicate-free dataset. -/
theorem C4_amended_witness :
    pubmedAdd pubmedW pubmedW = pubmedW :=
  (C4_amended pubmedW).2 (by decide) (by decide) (by decide)

/-! ### Dataset lookup lemmas -/

lemma dsMem_eq_isSome (d : Dataset) (t : String) :
    dsMem d t = (dsGet d t).isSome := by
  simp [dsMem, dsGet]

lemma dsMem_set (d : Dataset) (a v t : String) :
    dsMem (dsSet d a v) t = dsMem d t := by
  induction d with
  | nil => rfl
  | cons p ps ih =>
    simp only [dsSet, List.map_cons, dsMem, List.find?]
    by_cases hp : p.1 = a
    · rw [if_pos hp]
      by_cases ht : a = t
      · subst ht
        simp [hp]
      · have h1 : ((a, v).1 == t) = false := by simp [ht]
        have h2 : (p.1 == t) = false := by simp [hp, ht]
        simp only [h1, h2, Bool.false_eq_true, if_false]
        simpa [dsSet, dsMem] using ih
    · rw [if_neg hp]
      by_cases ht : p.1 = t
      · simp [ht]
      · have h2 : (p.1 == t) = false := by simp [ht]
        simp only [h2, Bool.false_eq_true, if_false]
        simpa [dsSet, dsMem] using ih

lemma dsGet_set (d : Dataset) (a v t : String) :
    dsGet (dsSet d a v) t =
      if a = t then (dsGet d t).map (fun _ => v) else dsGet d t := by
  induction d with
  | nil => by_cases h : a = t <;> simp [dsSet, dsGet, h]
  | cons p ps ih =>
    simp only [dsSet, List.map_cons, dsGet, List.find?]
    by_cases hp : p.1 = a
    · rw [if_pos hp]
      by_cases ht : a = t
      · subst ht
        simp [hp]
      · have h1 : ((a, v).1 == t) = false := by simp [ht]
        have h2 : (p.1 == t) = false := by simp [hp, ht]
        simp only [h1, h2, Bool.false_eq_true, if_false, if_neg ht]
        simpa [dsSet, dsGet, if_neg ht] using ih
    · rw [if_neg hp]
      by_cases ht : p.1 = t
      · have h2 : (p.1 == t) = true := by simp [ht]
        have ha : a ≠ t := fun hc => hp (by rw [hc, ht])
        simp [h2, ha]
      · have h2 : (p.1 == t) = false := by simp [ht]
        simp only [h2, Bool.false_eq_true, if_false]
        simpa [dsSet, dsGet] using ih

lemma dsGet_add (d : Dataset) (a v t : String) :
    dsGet (dsAdd d a v) t =
      match dsGet d t with
      | some x => some x
      | none => if a = t then some v else none := by
  induction d with
  | nil =>
    by_cases h : a = t
    · simp [dsAdd, dsGet, List.find?, h]
    · have hb : (a == t) = false := by simp [h]
      simp [dsAdd, dsGet, List.find?, hb, h]
  | cons p ps ih =>
    simp only [dsAdd, List.cons_append, dsGet, List.find?]
    by_cases ht : p.1 = t
    · have h2 : (p.1 == t) = true := by simp [ht]
      simp [h2]
    · have h2 : (p.1 == t) = false := by simp [ht]
      simp only [h2, Bool.false_eq_true, if_false]
      simpa [dsAdd, dsGet] using ih

lemma dsMem_add (d : Dataset) (a v t : String) :
    dsMem (dsAdd d a v) t = (dsMem d t || a == t) := by
  rw [dsMem_eq_isSome, dsMem_eq_isSome, dsGet_add]
  cases hg : dsGet d t with
  | some x => simp
  | none =>
    by_cases h : a = t
    · simp [h]
    · simp [h]

/-! ### Clearing loop lemmas for C8 -/

lemma dsMem_clearStep (d : Dataset) (a t : String) :
    dsMem (clearStep d a) t = dsMem d t := by
  unfold clearStep
  split
  · exact dsMem_set d a "" t
  · rfl

lemma dsMem_foldl_clear (ts : List String) :
    ∀ d t, dsMem (ts.foldl clearStep d) t = dsMem d t := by
  induction ts with
  | nil => intro d t; rfl
  | cons a ts ih =>
    intro d t
    simp only [List.foldl_cons]
    rw [ih, dsMem_clearStep]

lemma dsMem_overwriteStep (d : Dataset) (p : String × String) (t : String) :
    dsMem (overwriteStep d p) t = dsMem d t := by
  unfold overwriteStep
  split
  · exact dsMem_set d p.1 p.2 t
  · rfl

lemma dsMem_foldl_overwrite (ps : List (String × String)) :
    ∀ d t, dsMem (ps.foldl overwriteStep d) t = dsMem d t := by
  induction ps with
  | nil => intro d t; rfl
  | cons p ps ih =>
    intro d t
    simp only [List.foldl_cons]
    rw [ih, dsMem_overwriteStep]

lemma dsGet_clearStep_keep (d : Dataset) (a t : String)
    (h : dsGet d t = some "") : dsGet (clearStep d a) t = some "" := by
  unfold clearStep
  split
  · rw [dsGet_set]
    by_cases ha : a = t
    · simp [ha, h]
    · simp [ha, h]
  · exact h

lemma dsGet_foldl_clear_keep (ts : List String) :
    ∀ d t, dsGet d t = some "" → dsGet (ts.foldl clearStep d) t = some "" := by
  induction ts with
  | nil => intro d t h; exact h
  | cons a ts ih =>
    intro d t h
    simp only [List.foldl_cons]
    exact ih _ t (dsGet_clearStep_keep d a t h)

lemma dsGet_foldl_clear_mem (ts : List String) :
    ∀ d t, t ∈ ts → dsMem d t = true →
      dsGet (ts.foldl clearStep d) t = some "" := by
  induction ts with
  | nil => intro d t h; exact absurd h (by simp)
  | cons a ts ih =>
    intro d t hmem hd
    simp only [List.foldl_cons]
    by_cases ha : a = t
    · subst ha
      refine dsGet_foldl_clear_keep ts _ a ?_
      unfold clearStep
      rw [if_pos hd, dsGet_set, if_pos rfl]
      obtain ⟨x, hx⟩ := Option.isSome_iff_exists.mp (by rw [← dsMem_eq_isSome]; exact hd)
      simp [hx]
    · have ht : t ∈ ts := by
        rcases List.mem_cons.mp hmem with h | h
        · exact absurd h.symm ha
        · exact h
      refine ih _ t ht ?_
      rw [dsMem_clearStep]
      exact hd

/-- C8: during anonymization every tag of TAGS_CLEARED that is present in
the record ends up present with an empty value, every absent tag of that
list stays absent, and the clearing step on an absent tag leaves the
dataset untouched (it only logs, it cannot raise). -/
theorem C8_cleared_tags (ds : Dataset) (tL tS node : String) (out : Dataset)
    (t : String) (hok : anonymizeDataset ds tL tS node = .ok out)
    (ht : t ∈ TAGS_CLEARED) :
    (dsMem ds t = true → dsGet out t = some "") ∧
    (dsMem ds t = false → clearStep ds t = ds ∧ dsMem out t = false) := by
  have htD : t ≠ "DeviceSerialNumber" := by
    intro hc
    subst hc
    revert ht
    decide
  simp only [anonymizeDataset] at hok
  generalize hds1 : (if dsMem ds "DeviceSerialNumber" = true then ds
      else dsAdd ds "DeviceSerialNumber" tL) = ds1 at hok
  split at hok
  · exact absurd hok (by simp)
  next studyDate hSD =>
  split at hok
  · exact absurd hok (by simp)
  next studyTime hST =>
  split at hok
  · exact absurd hok (by simp)
  next studyUid0 hSU =>
  split at hok
  · exact absurd hok (by simp)
  next serialNum0 hSN =>
  split at hok
  · exact absurd hok (by simp)
  next npv hPid =>
  split at hok
  · exact absurd hok (by simp)
  next birth0 hBD =>
  simp only [Except.ok.injEq] at hok
  subst hok
  -- membership of t is unchanged up to the clearing loop
  have hmem1 : dsMem ds1 t = dsMem ds t := by
    rw [← hds1]
    split
    · rfl
    · rw [dsMem_add]
      have hne : ("DeviceSerialNumber" == t) = false := by
        rw [beq_eq_false_iff_ne]
        exact fun hc => htD hc.symm
      simp [hne]
  constructor
  · intro hpres
    unfold clearTags
    apply dsGet_foldl_clear_mem TAGS_CLEARED _ t ht
    rw [dsMem_foldl_overwrite, hmem1]
    exact hpres
  · intro habs
    constructor
    · unfold clearStep
      rw [if_neg (by simp [habs])]
    · unfold clearTags
      rw [dsMem_foldl_clear, dsMem_foldl_overwrite, hmem1]
      exact habs

/-- C8 witness: a concrete record where InstitutionName is present and
gets cleared while the absent OperatorsName tag stays absent. -/
theorem C8_cleared_tags_witness :
    dsGet [("StudyDate", "20230405"), ("StudyTime", "123000"),
      ("StudyInstanceUID", "1.2.840.113"), ("PatientBirthDate", "19800101"),
      ("InstitutionName", "")] "InstitutionName" = some "" :=
  (C8_cleared_tags
    [("StudyDate", "20230405"), ("StudyTime", "123000"),
     ("StudyInstanceUID", "1.2.840.113"), ("PatientBirthDate", "19800101"),
     ("InstitutionName", "Hospital X")]
    "20261012" "261012" "myhost"
    [("StudyDate", "20230101"), ("StudyTime", "123000"),
     ("StudyInstanceUID", "1.2.840.113"), ("PatientBirthDate", "19800101"),
     ("InstitutionName", ""), ("DeviceSerialNumber", "20261012")]
    "InstitutionName" (by decide) (by decide)).1 (by decide)

/-! ### Integer parsing lemmas for C2 -/

lemma data_append (s t : String) : (s ++ t).data = s.data ++ t.data := rfl

lemma digit_not_ws (c : Char) (h : c.isDigit = true) : c.isWhitespace = false := by
  by_contra hc
  have hw : c.isWhitespace = true := by
    cases hcc : c.isWhitespace
    · exact absurd hcc hc
    · rfl
  have h9 : c = ' ' ∨ c = '\t' ∨ c = '\r' ∨ c = '\n' := by
    simpa [Char.isWhitespace, or_assoc] using hw
  rcases h9 with h9 | h9 | h9 | h9 <;> subst h9 <;> simp [Char.isDigit] at h

lemma dropWhile_of_all_false {α : Type} (p : α → Bool) (l : List α)
    (h : ∀ a ∈ l, p a = false) : l.dropWhile p = l := by
  cases l with
  | nil => rfl
  | cons c cs =>
    rw [List.dropWhile_cons, if_neg]
    simp [h c (by simp)]

lemma stripChars_of_all_digits (cs : List Char)
    (h : cs.all Char.isDigit = true) : stripChars cs = cs := by
  have hws : ∀ a ∈ cs, a.isWhitespace = false := by
    intro a ha
    exact digit_not_ws a (List.all_eq_true.mp h a ha)
  unfold stripChars
  rw [dropWhile_of_all_false _ cs hws,
    dropWhile_of_all_false _ cs.reverse (fun a ha => hws a (List.mem_reverse.mp ha)),
    List.reverse_reverse]

lemma pyIntOfChars_of_digits (cs : List Char) (hne : cs ≠ [])
    (hd : cs.all Char.isDigit = true) : (pyIntOfChars cs).isSome = true := by
  unfold pyIntOfChars
  rw [stripChars_of_all_digits cs hd]
  cases cs with
  | nil => exact absurd rfl hne
  | cons c cs0 =>
    have hc : c.isDigit = true := List.all_eq_true.mp hd c (by simp)
    split
    next rest heq =>
      have hcp : c = '+' ∧ cs0 = rest := by simpa using heq
      rw [hcp.1] at hc
      simp [Char.isDigit] at hc
    next rest heq =>
      have hcp : c = '-' ∧ cs0 = rest := by simpa using heq
      rw [hcp.1] at hc
      simp [Char.isDigit] at hc
    next t h1 h2 =>
      rw [if_pos ⟨hne, hd⟩]
      rfl

/-! ### Dataset helper lemmas for the C2 success and error analysis -/

lemma dsGet_ensure_self (ds : Dataset) (tL : String) :
    (dsGet (if dsMem ds "DeviceSerialNumber" = true then ds
      else dsAdd ds "DeviceSerialNumber" tL) "DeviceSerialNumber").isSome = true := by
  split
  next hmem => rw [← dsMem_eq_isSome]; exact hmem
  next hmem =>
    rw [dsGet_add]
    cases hg : dsGet ds "DeviceSerialNumber" with
    | some x => simp
    | none => simp

lemma dsGet_after_ensure (ds : Dataset) (tL t : String)
    (ht : t ≠ "DeviceSerialNumber") :
    dsGet (if dsMem ds "DeviceSerialNumber" = true then ds
      else dsAdd ds "DeviceSerialNumber" tL) t = dsGet ds t := by
  split
  · rfl
  · rw [dsGet_add]
    cases hg : dsGet ds t with
    | some x => rfl
    | none =>
      rw [if_neg (fun hc => ht hc.symm)]

/-! ### Filesystem lemmas for C9 -/

lemma removeAll_spec (l : List String) : ∀ fs : List String, fs.Nodup →
    l.Nodup → (∀ f ∈ l, f ∈ fs) →
    ∃ fs2, removeAll l fs = some fs2 ∧ ∀ f, f ∈ fs2 ↔ (f ∈ fs ∧ f ∉ l) := by
  induction l with
  | nil =>
    intro fs _ _ _
    exact ⟨fs, rfl, fun f => by simp⟩
  | cons a rest ih =>
    intro fs hfs hnd hsub
    have ha : a ∈ fs := hsub a (by simp)
    have h1 : osRemove a fs = some (fs.erase a) := by
      unfold osRemove
      rw [if_pos ha]
    have hsub2 : ∀ f ∈ rest, f ∈ fs.erase a := by
      intro f hf
      have hne : f ≠ a := by
        intro hc
        subst hc
        exact (List.nodup_cons.mp hnd).1 hf
      rw [List.mem_erase_of_ne hne]
      exact hsub f (by simp [hf])
    obtain ⟨fs2, h2, h3⟩ :=
      ih (fs.erase a) (hfs.erase a) (List.Nodup.of_cons hnd) hsub2
    refine ⟨fs2, ?_, ?_⟩
    · simp only [removeAll, h1]
      exact h2
    · intro f
      rw [h3 f]
      constructor
      · rintro ⟨hfe, hnr⟩
        have hh := (List.Nodup.mem_erase_iff hfs).mp hfe
        refine ⟨hh.2, ?_⟩
        intro hc
        rcases List.mem_cons.mp hc with hc | hc
        · exact hh.1 hc
        · exact hnr hc
      · rintro ⟨hf, hnar⟩
        have hne : f ≠ a := fun hc => hnar (by simp [hc])
        have hnr : f ∉ rest := fun hc => hnar (by simp [hc])
        exact ⟨(List.Nodup.mem_erase_iff hfs).mpr ⟨hne, hf⟩, hnr⟩

/-- C9: building a DicomDir deletes from the filesystem every listed file
whose path contains the substring anonymized, keeps every other file, and
retains only the clean files in the in-memory list. -/
theorem C9_deletes_anonymized (fileList fs : List String)
    (hfl : fileList.Nodup) (hfs : fs.Nodup)
    (hsub : ∀ f ∈ fileList, f ∈ fs) :
    ∃ fs2, dicomDirInit fileList fs =
        some (fs2, fileList.filter (fun f => !hasAnonymized f)) ∧
      (∀ f ∈ fileList, hasAnonymized f = true → f ∉ fs2) ∧
      (∀ f ∈ fs, ¬(f ∈ fileList ∧ hasAnonymized f = true) → f ∈ fs2) := by
  have hnd : (fileList.filter (fun f => hasAnonymized f)).Nodup := hfl.filter _
  have hsub2 : ∀ f ∈ fileList.filter (fun f => hasAnonymized f), f ∈ fs := by
    intro f hf
    exact hsub f (List.mem_filter.mp hf).1
  obtain ⟨fs2, h1, h2⟩ := removeAll_spec _ fs hfs hnd hsub2
  refine ⟨fs2, ?_, ?_, ?_⟩
  · simp only [dicomDirInit, h1]
  · intro f hf ha hin
    have hh := (h2 f).mp hin
    exact hh.2 (List.mem_filter.mpr ⟨hf, ha⟩)
  · intro f hf hnot
    refine (h2 f).mpr ⟨hf, fun hc => ?_⟩
    have hm := List.mem_filter.mp hc
    exact hnot ⟨hm.1, hm.2⟩

/-- C9 witness at a concrete directory listing. -/
theorem C9_deletes_anonymized_witness :
    ∃ fs2, dicomDirInit ["a_anonymized.dcm", "b.dcm"]
        ["a_anonymized.dcm", "b.dcm", "c.txt"] =
        some (fs2, (["a_anonymized.dcm", "b.dcm"]).filter
          (fun f => !hasAnonymized f)) ∧
      (∀ f ∈ ["a_anonymized.dcm", "b.dcm"], hasAnonymized f = true → f ∉ fs2) ∧
      (∀ f ∈ ["a_anonymized.dcm", "b.dcm", "c.txt"],
        ¬(f ∈ ["a_anonymized.dcm", "b.dcm"] ∧ hasAnonymized f = true) →
          f ∈ fs2) :=
  C9_deletes_anonymized ["a_anonymized.dcm", "b.dcm"]
    ["a_anonymized.dcm", "b.dcm", "c.txt"] (by decide) (by decide) (by decide)

/-- C10: neither anonymization method mutates the in-memory source record:
on success the object carried through both methods holds a dataset equal to
the input dataset, and the derived and cleared values appear only in the
separately returned (and saved) deep copy. -/
theorem C10_no_mutation (self : DicomFile) (tL tS node newPath : String)
    (fs : FileStore) :
    (∀ r, anonymizeDatasetMethod self tL tS node = .ok r →
      r.1.dataset = self.dataset ∧
      anonymizeDataset self.dataset tL tS node = .ok r.2) ∧
    (∀ r, anonymizeMethod self tL tS node newPath fs = .ok r →
      r.1.dataset = self.dataset ∧
      ∃ d, anonymizeDataset self.dataset tL tS node = .ok d ∧
        r.2.1 = fsSave newPath d fs) := by
  constructor
  · intro r h
    unfold anonymizeDatasetMethod at h
    split at h
    next d hd =>
      simp only [Except.ok.injEq] at h
      subst h
      exact ⟨rfl, hd⟩
    · exact absurd h (by simp)
  · intro r h
    unfold anonymizeMethod at h
    split at h
    · exact absurd h (by simp)
    next self2 d heq =>
      simp only [Except.ok.injEq] at h
      subst h
      unfold anonymizeDatasetMethod at heq
      split at heq
      next d2 hd2 =>
        simp only [Except.ok.injEq, Prod.mk.injEq] at heq
        obtain ⟨hs, hd⟩ := heq
        subst hs
        subst hd
        exact ⟨rfl, d2, hd2, rfl⟩
      · exact absurd heq (by simp)

/-- C10 witness at a concrete record. -/
theorem C10_no_mutation_witness :
    (dfW, anonOutW).1.dataset = dfW.dataset ∧
    anonymizeDataset dfW.dataset "20261012" "261012" "myhost" = .ok anonOutW :=
  (C10_no_mutation dfW "20261012" "261012" "myhost" "/data/img_anonymized.dcm"
    []).1 (dfW, anonOutW) (by decide)

/-- C2 amended: the per-record anonymization aborts with a lookup error
exactly for the four unconditionally read tags StudyDate, StudyTime,
StudyInstanceUID and PatientBirthDate; with all four present and
digit-only date and time values the transform returns success (a
non-numeric date or time can still abort with ValueError, which is not a
lookup error). -/
theorem C2_amended (ds : Dataset) (tL tS node : String)
    (hts : isNumericB tS = true) :
    (∀ sd stm su bd, dsGet ds "StudyDate" = some sd →
      dsGet ds "StudyTime" = some stm →
      dsGet ds "StudyInstanceUID" = some su →
      dsGet ds "PatientBirthDate" = some bd →
      sd.data.all Char.isDigit = true → stm.data.all Char.isDigit = true →
      ∃ out, anonymizeDataset ds tL tS node = .ok out) ∧
    (∀ tag, anonymizeDataset ds tL tS node = .error (.keyError tag) →
      tag = "StudyDate" ∨ tag = "StudyTime" ∨ tag = "StudyInstanceUID" ∨
      tag = "PatientBirthDate") ∧
    ((dsGet ds "StudyDate" = none ∨ dsGet ds "StudyTime" = none ∨
      dsGet ds "StudyInstanceUID" = none ∨
      dsGet ds "PatientBirthDate" = none) →
      ∀ out, anonymizeDataset ds tL tS node ≠ .ok out) := by
  refine ⟨?_, ?_, ?_⟩
  · -- success on the four tags with digit-only date and time
    intro sd stm su bd h1 h2 h3 h4 hd1 hd2
    simp only [anonymizeDataset, h1, h2, h3]
    obtain ⟨s0, hs0⟩ := Option.isSome_iff_exists.mp (dsGet_ensure_self ds tL)
    simp only [hs0]
    generalize hserial : (if isNumericB s0 = true then s0 else tS) = serial
    have hsnum : isNumericB serial = true := by
      rw [← hserial]
      split
      · assumption
      · exact hts
    have hser : serial.data ≠ [] ∧ serial.data.all Char.isDigit = true := by
      have hsnum2 := hsnum
      simp only [isNumericB, Bool.and_eq_true, Bool.not_eq_true'] at hsnum2
      refine ⟨?_, hsnum2.2⟩
      intro hc
      rw [hc] at hsnum2
      simp at hsnum2
    have hne : (serial ++ pyDropN 2 sd ++ pyTake 4 stm).data ≠ [] := by
      rw [data_append, data_append]
      intro hc
      exact hser.1 (List.append_eq_nil.mp (List.append_eq_nil.mp hc).1).1
    have hall : (serial ++ pyDropN 2 sd ++
        pyTake 4 stm).data.all Char.isDigit = true := by
      rw [data_append, data_append]
      rw [List.all_append, List.all_append]
      simp only [Bool.and_eq_true]
      refine ⟨⟨hser.2, ?_⟩, ?_⟩
      · refine List.all_eq_true.mpr (fun c hc => ?_)
        exact List.all_eq_true.mp hd1 c (List.drop_subset 2 sd.data hc)
      · refine List.all_eq_true.mpr (fun c hc => ?_)
        exact List.all_eq_true.mp hd2 c (List.take_subset 4 stm.data hc)
    obtain ⟨npv, hnpv⟩ :=
      Option.isSome_iff_exists.mp (pyIntOfChars_of_digits _ hne hall)
    simp only [hnpv]
    have hbd : dsGet (if dsMem ds "DeviceSerialNumber" = true then ds
        else dsAdd ds "DeviceSerialNumber" tL) "PatientBirthDate" = some bd := by
      rw [dsGet_after_ensure ds tL _ (by decide)]
      exact h4
    simp only [hbd]
    exact ⟨_, rfl⟩
  · -- a lookup error names one of the four unconditionally read tags
    intro tag hok
    simp only [anonymizeDataset] at hok
    split at hok
    next hSD =>
      simp only [Except.error.injEq, PyErr.keyError.injEq] at hok
      exact .inl hok.symm
    next sd hSD =>
    split at hok
    next hST =>
      simp only [Except.error.injEq, PyErr.keyError.injEq] at hok
      exact .inr (.inl hok.symm)
    next stm hST =>
    split at hok
    next hSU =>
      simp only [Except.error.injEq, PyErr.keyError.injEq] at hok
      exact .inr (.inr (.inl hok.symm))
    next su hSU =>
    split at hok
    next hSN =>
      have hc := dsGet_ensure_self ds tL
      rw [hSN] at hc
      exact absurd hc (by simp)
    next s0 hSN =>
    split at hok
    next hPid => exact absurd hok (by simp)
    next npv hPid =>
    split at hok
    next hBD =>
      simp only [Except.error.injEq, PyErr.keyError.injEq] at hok
      exact .inr (.inr (.inr hok.symm))
    next bd hBD => exact absurd hok (by simp)
  · -- a missing tag among the four prevents success
    intro hsome out hok
    simp only [anonymizeDataset] at hok
    split at hok
    · exact absurd hok (by simp)
    next sd hSD =>
    split at hok
    · exact absurd hok (by simp)
    next stm hST =>
    split at hok
    · exact absurd hok (by simp)
    next su hSU =>
    split at hok
    · exact absurd hok (by simp)
    next s0 hSN =>
    split at hok
    · exact absurd hok (by simp)
    next npv hPid =>
    split at hok
    · exact absurd hok (by simp)
    next bd hBD =>
    have hbd4 : dsGet ds "PatientBirthDate" = some bd := by
      rw [← dsGet_after_ensure ds tL _ (by decide)]
      exact hBD
    rcases hsome with h | h | h | h
    · rw [h] at hSD; exact absurd hSD (by simp)
    · rw [h] at hST; exact absurd hST (by simp)
    · rw [h] at hSU; exact absurd hSU (by simp)
    · rw [h] at hbd4; exact absurd hbd4 (by simp)

/-- C2 amended witness: a record with the four tags present anonymizes
successfully. -/
theorem C2_amended_witness :
    isNumericB "261012" = true ∧
    ∃ out, anonymizeDataset
      [("StudyDate", "20230405"), ("StudyTime", "123000"),
       ("StudyInstanceUID", "1.2.840.113"), ("DeviceSerialNumber", "1234"),
       ("PatientBirthDate", "19800615")] "20261012" "261012" "myhost" =
      .ok out :=
  ⟨by decide,
   (C2_amended
     [("StudyDate", "20230405"), ("StudyTime", "123000"),
      ("StudyInstanceUID", "1.2.840.113"), ("DeviceSerialNumber", "1234"),
      ("PatientBirthDate", "19800615")] "20261012" "261012" "myhost"
     (by decide)).1
     "20230405" "123000" "1.2.840.113" "19800615"
     (by decide) (by decide) (by decide) (by decide) (by decide) (by decide)⟩

end Pybrors
